import Mathlib

/-!
Shallow embedding of the job-control shell in `LabC/myshell.c` (with the
parser `LineParser` kept abstract, as it is an external collaborator of the
shell core).  Definitions are translated from the C source; machine `int`
values (pids, status codes) are modelled as `Int`, C strings as `String`,
the intrusive singly linked process list as `List Process` (list order =
`next` pointer order, head of list = head pointer).
-/

/-- `#define TERMINATED -1` (myshell.c line 19). -/
def TERMINATED : Int := -1

/-- `#define RUNNING 1` (myshell.c line 20). -/
def RUNNING : Int := 1

/-- `#define SUSPENDED 0` (myshell.c line 21). -/
def SUSPENDED : Int := 0

/-- `#define HISTLEN 20` (myshell.c line 22). -/
def HISTLEN : Nat := 20

/-- `#define MAX_BUF 200` (myshell.c line 23). -/
def MAX_BUF : Nat := 200

/-- The per-stage fields of the `cmdLine` record produced by the external
parser (`LineParser.h`): argument vector (`arguments`, first entry the
program name), optional input/output redirect paths, and the blocking flag
(`blocking != 0` = foreground). -/
structure Stage where
  arguments : List String
  inputRedirect : Option String
  outputRedirect : Option String
  blocking : Bool
deriving DecidableEq

/-- A `cmdLine` chain: one stage plus its `next` pointer, with the null
pointer (`single`) and non-null pointer (`pipe`) cases as constructors. -/
inductive CmdLine where
  | single (s : Stage)
  | pipe (s : Stage) (rest : CmdLine)
deriving DecidableEq

/-- The stage fields of the head `cmdLine` record. -/
def CmdLine.stage : CmdLine → Stage
  | .single s => s
  | .pipe s _ => s

/-- Field accessor for `cmdLine->arguments`. -/
def CmdLine.arguments (c : CmdLine) : List String := c.stage.arguments

/-- Field accessor for `cmdLine->inputRedirect`. -/
def CmdLine.inputRedirect (c : CmdLine) : Option String :=
  c.stage.inputRedirect

/-- Field accessor for `cmdLine->outputRedirect`. -/
def CmdLine.outputRedirect (c : CmdLine) : Option String :=
  c.stage.outputRedirect

/-- Field accessor for `cmdLine->blocking`. -/
def CmdLine.blocking (c : CmdLine) : Bool := c.stage.blocking

/-- Field accessor for `cmdLine->next` (`none` = null pointer). -/
def CmdLine.next : CmdLine → Option CmdLine
  | .single _ => none
  | .pipe _ rest => some rest

/-- `cmdLine->arguments[0]` (the program name). -/
def CmdLine.arg0 (c : CmdLine) : String := c.arguments.getD 0 ""

/-- Replace the blocking flag of the head stage of a command (used to state
that pipeline handling ignores the background marker). -/
def CmdLine.withBlocking : CmdLine → Bool → CmdLine
  | .single s, b => .single { s with blocking := b }
  | .pipe s rest, b => .pipe { s with blocking := b } rest

/-- The `process` node of the job table (myshell.c lines 31-37): parsed
command, pid, status (`RUNNING`/`SUSPENDED`/`TERMINATED`).  The `next`
pointer is the list structure itself. -/
structure Process where
  cmd : CmdLine
  pid : Int
  status : Int
deriving DecidableEq

/-- Outcome of one `waitpid(pid, &status, WCONTINUED | WNOHANG | WUNTRACED)`
call as consumed by `updateProcessList` (myshell.c lines 95-118):
`noChange` is `res == 0`; the others are `res != 0` with the corresponding
`WIF...` predicate on the reported status; `other` is `res != 0` with none
of the four predicates holding (then the `if`/`else if` chain writes
nothing).  A `res == -1` error (e.g. a child already collected by the
foreground wait) leaves `status` holding its previous value and is
dispatched through the same predicates on that stale value — stale `0`
satisfies `WIFEXITED` and lands on `exited`. -/
inductive WaitRes where
  | noChange
  | exited
  | signaled
  | stopped
  | continued
  | other
deriving DecidableEq

/-- `updateProcessStatus` (myshell.c lines 78-89): scan from the given node,
set the status of the first node whose pid matches, then `break`; a miss
falls off the loop with no effect. -/
def updateProcessStatus (l : List Process) (pid status : Int) :
    List Process :=
  match l with
  | [] => []
  | p :: rest =>
      if p.pid = pid then { p with status := status } :: rest
      else p :: updateProcessStatus rest pid status

/-- The standard-error output of `updateProcessStatus` (myshell.c lines
82-84): one diagnostic when the pid is found and `debug` is set, nothing
otherwise — in particular a miss prints nothing. -/
def updateProcessStatusStderr (debug : Bool) (l : List Process)
    (pid status : Int) : List String :=
  match l with
  | [] => []
  | p :: rest =>
      if p.pid = pid then
        if debug then
          ["updateProcessStatus: Updated PID " ++ toString pid ++
            " to status " ++ toString status ++ "\n"]
        else []
      else updateProcessStatusStderr debug rest pid status

/-- `updateProcessList` (myshell.c lines 91-121): for each node `curr` in
order, call `waitpid(curr->pid, ..., WCONTINUED | WNOHANG | WUNTRACED)`
(modelled by the report function `rep`) and dispatch on the outcome,
writing the new status with `updateProcessStatus(curr, curr->pid, s)` —
a scan that starts at `curr` and therefore matches `curr` itself. -/
def updateProcessList (rep : Int → WaitRes) : List Process → List Process
  | [] => []
  | curr :: rest =>
      let tail := updateProcessList rep rest
      match rep curr.pid with
      | .noChange => updateProcessStatus (curr :: tail) curr.pid RUNNING
      | .exited => updateProcessStatus (curr :: tail) curr.pid TERMINATED
      | .signaled => updateProcessStatus (curr :: tail) curr.pid TERMINATED
      | .continued => updateProcessStatus (curr :: tail) curr.pid RUNNING
      | .stopped => updateProcessStatus (curr :: tail) curr.pid SUSPENDED
      | .other => curr :: tail

/-- `addProcess` (myshell.c lines 123-133): allocate a node with the given
command and pid, status `RUNNING`, and link it in at the head of the list. -/
def addProcess (l : List Process) (cmd : CmdLine) (pid : Int) :
    List Process :=
  { cmd := cmd, pid := pid, status := RUNNING } :: l

/-- `deleteProcess` (myshell.c lines 135-162): unlink the given node from
the list and free it.  Pointer identity of the node is modelled as
structural identity: the first structurally equal node is removed (the
reaping loop only ever deletes nodes it obtained from the list itself). -/
def deleteProcess (l : List Process) (proc : Process) : List Process :=
  match l with
  | [] => []
  | p :: rest => if p = proc then rest else p :: deleteProcess rest proc

/-- One line of the `procs` table body (myshell.c line 173): pid,
`cmd->arguments[0]`, and the status word. -/
structure ProcsLine where
  pid : Int
  command : String
  statusWord : String
deriving DecidableEq

/-- The status word printed by `printProcessList` (myshell.c lines
174-175): `status == RUNNING ? "Running" : (status == SUSPENDED ?
"Suspended" : "Terminated")`. -/
def statusWord (status : Int) : String :=
  if status = RUNNING then "Running"
  else if status = SUSPENDED then "Suspended" else "Terminated"

/-- The display loop of `printProcessList` (myshell.c lines 171-178): one
`ProcsLine` per node, in list order. -/
def displayLoop (l : List Process) : List ProcsLine :=
  l.map fun p => ⟨p.pid, p.cmd.arg0, statusWord p.status⟩

/-- The garbage-collection loop of `printProcessList` (myshell.c lines
181-188): iterate over the node sequence `todo` (with the `next` pointer
saved before each deletion), calling `deleteProcess` on the shared list for
every node whose status is `TERMINATED`. -/
def reapPass (state : List Process) : List Process → List Process
  | [] => state
  | curr :: rest =>
      if curr.status = TERMINATED then
        reapPass (deleteProcess state curr) rest
      else reapPass state rest

/-- `printProcessList` (myshell.c lines 164-189): first reconcile with
`updateProcessList`, then print every node, then delete the nodes observed
`TERMINATED`.  Returns the printed table body and the remaining list. -/
def printProcessList (rep : Int → WaitRes) (l : List Process) :
    List ProcsLine × List Process :=
  let l2 := updateProcessList rep l
  (displayLoop l2, reapPass l2 l2)

/-- The history ring state (myshell.c lines 25-28): the `HISTLEN × MAX_BUF`
char array (as a list of `n` slot strings), `history_count`,
`history_start` and `history_end`.  The capacity `n` is the value of
`HISTLEN`, kept as a parameter of the operations so the bound can be stated
for every capacity. -/
structure HistState where
  slots : List String
  count : Nat
  start : Nat
  hEnd : Nat
deriving DecidableEq

/-- The zero-initialised globals of myshell.c: every slot an empty string,
`history_count = history_start = history_end = 0`. -/
def initHist (n : Nat) : HistState :=
  { slots := List.replicate n "", count := 0, start := 0, hEnd := 0 }

/-- The effect of `strncpy(dst, cmd, MAX_BUF - 1)` followed by
`dst[MAX_BUF - 1] = '\0'` (myshell.c lines 42-43): the stored string is
`cmd` truncated to its first `MAX_BUF - 1` characters. -/
def histStore (cmd : String) : String := cmd.take (MAX_BUF - 1)

/-- `addToHistory` (myshell.c lines 41-50): store the (truncated) line at
slot `history_end`, advance `history_end` modulo the capacity, and either
grow `history_count` or advance `history_start` once the ring is full. -/
def addToHistory (n : Nat) (s : HistState) (cmd : String) : HistState :=
  { slots := s.slots.set s.hEnd (histStore cmd)
    hEnd := (s.hEnd + 1) % n
    count := if s.count < n then s.count + 1 else s.count
    start := if s.count < n then s.start else (s.start + 1) % n }

/-- `printHistory` (myshell.c lines 52-57): for `i = 0 .. count-1` print
`i+1` and slot `(history_start + i) % HISTLEN`; the printed line text is the
stored line (which carries its own newline from `fgets`). -/
def printHistory (n : Nat) (s : HistState) : List (Nat × String) :=
  (List.range s.count).map fun i =>
    (i + 1, s.slots.getD ((s.start + i) % n) "")

/-- `getHistoryCommand` (myshell.c lines 59-66): indices outside
`[1, history_count]` print a diagnostic and return `NULL`; otherwise return
slot `(history_start + index - 1) % HISTLEN`. -/
def getHistoryCommand (n : Nat) (s : HistState) (index : Nat) :
    Option String :=
  if index < 1 ∨ index > s.count then none
  else some (s.slots.getD ((s.start + (index - 1)) % n) "")

/-- Append a sequence of input lines in order (repeated `addToHistory`). -/
def appendAll (n : Nat) (lines : List String) (s : HistState) : HistState :=
  lines.foldl (addToHistory n) s

/-- `atoi` on the tail of the input line starting at `input[1]` (myshell.c
line 425): the call site guarantees the first character is a digit, so
`atoi` reads the leading digit run and ignores the rest of the line. -/
def atoiDigits : List Char → Nat → Nat
  | c :: rest, acc =>
      if c.isDigit then atoiDigits rest (acc * 10 + (c.toNat - '0'.toNat))
      else acc
  | [], acc => acc

/-- The history-expansion step of `main` (myshell.c lines 412-434): an
exact `"!!\n"` line recalls index `history_count`; a line starting `!` with
a digit recalls the `atoi` index; a failed recall returns `none` (the loop
prints a diagnostic and `continue`s); any other line passes through. -/
def expandLine (n : Nat) (hist : HistState) (input : String) :
    Option String :=
  if input = "!!\n" then getHistoryCommand n hist hist.count
  else
    match input.data with
    | c0 :: c1 :: _ =>
        if c0 = '!' then
          if c1.isDigit then
            getHistoryCommand n hist (atoiDigits (input.data.drop 1) 0)
          else some input
        else some input
    | _ => some input

/-- What one iteration of the `main` loop does with an input line after
history handling (myshell.c lines 435-447). -/
inductive Outcome where
  | recallFailed
  | parseNone
  | quitCmd
  | dispatched (c : CmdLine)
deriving DecidableEq

/-- One iteration of the `main` read loop (myshell.c lines 404-448) for a
non-EOF line: history expansion; on a failed recall, `continue` with the
history untouched; otherwise `addToHistory` on the (possibly substituted)
line, then hand it to the external parser `parseCmdLines` (the parameter
`parse`); `NULL` from the parser means `continue`; a parsed `quit` breaks
the loop; anything else goes to `execute`.  Returns the new history state
and the outcome. -/
def mainStep (n : Nat) (parse : String → Option CmdLine) (input : String)
    (hist : HistState) : HistState × Outcome :=
  match expandLine n hist input with
  | none => (hist, .recallFailed)
  | some line =>
      let hist2 := addToHistory n hist line
      match parse line with
      | none => (hist2, .parseNone)
      | some c =>
          if c.arg0 = "quit" then (hist2, .quitCmd)
          else (hist2, .dispatched c)

/-- An observable action of the parent shell process during a launch
(forks, pipe-descriptor closes, waits, job-table insertions).  `closedFd 0`
is the pipe's read end `pipefd[0]`, `closedFd 1` its write end
`pipefd[1]`. -/
inductive ParentAction where
  | createdPipe
  | forked (pid : Int)
  | addedJob (pid : Int)
  | closedFd (fd : Nat)
  | waited (pid : Int)
deriving DecidableEq

/-- What a forked pipeline child does after wiring its end of the pipe:
either it prints a diagnostic and calls `_exit(1)` before ever reaching
`execvp` (`rejected`), or it reaches `execvp` with the given argument
vector (`execRequested`). -/
inductive ChildResult where
  | rejected (diag : String)
  | execRequested (args : List String)
deriving DecidableEq

/-- The first pipeline child (myshell.c lines 269-284): after duplicating
the pipe's write end onto stdout and closing both raw descriptors, it
rejects with `_exit(1)` if the left command has an output redirect,
otherwise calls `execvp` on the left command's arguments. -/
def pipeChildA (c : CmdLine) : ChildResult :=
  if c.outputRedirect.isSome then
    .rejected
      "Output redirection on the left-hand side of the pipe is not allowed\n"
  else .execRequested c.arguments

/-- The second pipeline child (myshell.c lines 290-305): after duplicating
the pipe's read end onto stdin and closing both raw descriptors, it rejects
with `_exit(1)` if the right command (`pCmdLine->next`) has an input
redirect, otherwise calls `execvp` on the right command's arguments. -/
def pipeChildB (c2 : CmdLine) : ChildResult :=
  if c2.inputRedirect.isSome then
    .rejected
      "Input redirection on the right-hand side of the pipe is not allowed\n"
  else .execRequested c2.arguments

/-- `executePipeCommands` (myshell.c lines 258-311), called by `execute`
only when `pCmdLine->next` is non-null; `c2` is that second stage and
`pid1`, `pid2` the pids returned by the two forks.  The parent creates the
pipe, forks both children, closes `pipefd[0]` and `pipefd[1]`, and waits on
both pids — the job table `jobs` is never touched.  Result: the job table,
the parent's action trace in program order, and what each child does. -/
def executePipeCommands (c c2 : CmdLine) (pid1 pid2 : Int)
    (jobs : List Process) :
    List Process × List ParentAction × ChildResult × ChildResult :=
  (jobs,
   [.createdPipe, .forked pid1, .forked pid2, .closedFd 0, .closedFd 1,
    .waited pid1, .waited pid2],
   pipeChildA c, pipeChildB c2)

/-- `executeSingleCommand`, parent path (myshell.c lines 355-366), with
`pid` the pid returned by `fork`: `addProcess` registers the job (status
`RUNNING`, head of list) and only then, if the command is blocking, the
parent waits on that pid.  Result: the new job table and the parent's
action trace in program order. -/
def executeSingleCommand (c : CmdLine) (pid : Int) (jobs : List Process) :
    List Process × List ParentAction :=
  (addProcess jobs c pid,
   [.forked pid, .addedJob pid] ++
     (if c.blocking then [.waited pid] else []))

/-- One shell operation acting on the job table, as in the claims about
launch/`procs` sequences: a successful single-command launch that forked
pid `pid` (the only path that inserts into the job table), or a `procs`
invocation whose `waitpid` reports are given by `rep`.  The remaining
built-ins (`cd`/`alarm`/`blast`/`sleep`/`history`) never touch the job
table: `updateProcessStatus` is called only from `updateProcessList`, which
is called only from `printProcessList`. -/
inductive ShellOp where
  | launch (cmd : CmdLine) (pid : Int)
  | procs (rep : Int → WaitRes)

/-- Apply one operation to the job table. -/
def applyOp (l : List Process) : ShellOp → List Process
  | .launch cmd pid => (executeSingleCommand cmd pid l).1
  | .procs rep => (printProcessList rep l).2

/-- Run a sequence of operations from the given job table. -/
def runFrom (l : List Process) (ops : List ShellOp) : List Process :=
  ops.foldl applyOp l

/-- Run a sequence of operations from the empty job table (the shell's
initial state, `process_list = NULL`). -/
def run (ops : List ShellOp) : List Process := runFrom [] ops

/-- The table bodies printed by the successive `procs` invocations of an
operation sequence run from table `l`. -/
def runOutputs (l : List Process) : List ShellOp → List (List ProcsLine)
  | [] => []
  | .launch cmd pid :: rest =>
      runOutputs ((executeSingleCommand cmd pid l).1) rest
  | .procs rep :: rest =>
      (printProcessList rep l).1 :: runOutputs ((printProcessList rep l).2) rest

/-- The effect of one iteration of the `updateProcessList` loop on its own
node: the status written for `curr` as a function of the `waitpid` outcome
for `curr->pid` (the `.other` case writes nothing).  `updateProcessList` is
proved equal to mapping this over the list, which is the sense in which one
invocation observes each tracked pid exactly once. -/
def reconcileEntry (rep : Int → WaitRes) (p : Process) : Process :=
  match rep p.pid with
  | .noChange => { p with status := RUNNING }
  | .exited => { p with status := TERMINATED }
  | .signaled => { p with status := TERMINATED }
  | .continued => { p with status := RUNNING }
  | .stopped => { p with status := SUSPENDED }
  | .other => p

/-- Every entry of the job table is `RUNNING` or `SUSPENDED` — the state of
the table at every operation boundary (`TERMINATED` entries never outlive
the `procs` call that observes them). -/
def validStatus (l : List Process) : Prop :=
  ∀ p ∈ l, p.status = RUNNING ∨ p.status = SUSPENDED

/-- One status move along `Running ↔ Suspended → Terminated`: the old
status is never `TERMINATED` and the new one is one of the three codes. -/
def allowedTransition (old new : Int) : Prop :=
  (old = RUNNING ∨ old = SUSPENDED) ∧
  (new = RUNNING ∨ new = SUSPENDED ∨ new = TERMINATED)

/-- A concrete foreground command, for witnesses. -/
def sampleStage : Stage :=
  { arguments := ["sleep", "5"], inputRedirect := none,
    outputRedirect := none, blocking := true }

/-- A concrete single (non-pipeline) foreground command. -/
def sampleCmd : CmdLine := .single sampleStage

/-- A concrete left pipeline stage carrying an output redirect. -/
def redirOutStage : Stage :=
  { arguments := ["ls"], inputRedirect := none,
    outputRedirect := some "out.txt", blocking := true }

/-- A concrete right pipeline stage carrying an input redirect. -/
def redirInStage : Stage :=
  { arguments := ["wc"], inputRedirect := some "in.txt",
    outputRedirect := none, blocking := true }

/-- A concrete two-stage pipeline: left stage with an output redirect,
right stage with an input redirect. -/
def samplePipeline : CmdLine := .pipe redirOutStage (.single redirInStage)

/-- A report in which `waitpid` finds every child exited. -/
def repExit : Int → WaitRes := fun _ => WaitRes.exited

/-- A report in which `waitpid` reports no pending change for any child
(`res == 0`). -/
def repNone : Int → WaitRes := fun _ => WaitRes.noChange

/-- A report in which `waitpid` finds every child stopped by a signal. -/
def repStop : Int → WaitRes := fun _ => WaitRes.stopped

/-- A concrete operation sequence: launch one foreground command as pid 7. -/
def c1ops : List ShellOp := [.launch sampleCmd 7]

/-- A concrete continuation: one further `procs` invocation. -/
def c1later : List ShellOp := [.procs repExit]

theorem updateProcessStatus_cons_self (p : Process) (l : List Process)
    (s : Int) :
    updateProcessStatus (p :: l) p.pid s = { p with status := s } :: l := by
  simp [updateProcessStatus]

theorem updateProcessList_eq_map (rep : Int → WaitRes) (l : List Process) :
    updateProcessList rep l = l.map (reconcileEntry rep) := by
  induction l with
  | nil => rfl
  | cons curr rest ih =>
      simp only [updateProcessList, List.map_cons, ih, reconcileEntry]
      cases h : rep curr.pid <;>
        simp [h, updateProcessStatus_cons_self]

theorem reconcileEntry_pid (rep : Int → WaitRes) (p : Process) :
    (reconcileEntry rep p).pid = p.pid := by
  unfold reconcileEntry
  cases rep p.pid <;> rfl

theorem reconcileEntry_cmd (rep : Int → WaitRes) (p : Process) :
    (reconcileEntry rep p).cmd = p.cmd := by
  unfold reconcileEntry
  cases rep p.pid <;> rfl

theorem deleteProcess_cons_ne (p q : Process) (l : List Process)
    (h : p ≠ q) : deleteProcess (p :: l) q = p :: deleteProcess l q := by
  simp [deleteProcess, h]

theorem reapPass_cons (h : Process) (hh : h.status ≠ TERMINATED)
    (todo : List Process) :
    ∀ state, reapPass (h :: state) todo = h :: reapPass state todo := by
  induction todo with
  | nil => intro state; rfl
  | cons curr rest ih =>
      intro state
      by_cases hc : curr.status = TERMINATED
      · have hne : h ≠ curr := fun he => hh (by rw [he, hc])
        rw [show reapPass (h :: state) (curr :: rest) =
              reapPass (deleteProcess (h :: state) curr) rest from by
            simp [reapPass, hc]]
        rw [deleteProcess_cons_ne _ _ _ hne, ih]
        simp [reapPass, hc]
      · simp only [reapPass, if_neg hc]
        exact ih state

theorem reapPass_self (l : List Process) :
    reapPass l l = l.filter (fun p => p.status != TERMINATED) := by
  induction l with
  | nil => rfl
  | cons h t ih =>
      by_cases hh : h.status = TERMINATED
      · have : deleteProcess (h :: t) h = t := by simp [deleteProcess]
        simp [reapPass, hh, this, ih, List.filter]
      · rw [show reapPass (h :: t) (h :: t) = reapPass (h :: t) t from by
            simp [reapPass, hh]]
        rw [reapPass_cons h hh t t, ih]
        have : (h.status != TERMINATED) = true := by simpa using hh
        simp [List.filter, this]

theorem printProcessList_snd (rep : Int → WaitRes) (l : List Process) :
    (printProcessList rep l).2 =
      (updateProcessList rep l).filter (fun p => p.status != TERMINATED) := by
  simp [printProcessList, reapPass_self]

theorem statusWord_terminated_iff (s : Int)
    (h : s = RUNNING ∨ s = SUSPENDED ∨ s = TERMINATED) :
    statusWord s = "Terminated" ↔ s = TERMINATED := by
  rcases h with h | h | h <;> subst h <;> decide

theorem reconcileEntry_status (rep : Int → WaitRes) (p : Process)
    (h : p.status = RUNNING ∨ p.status = SUSPENDED) :
    (reconcileEntry rep p).status = RUNNING ∨
    (reconcileEntry rep p).status = SUSPENDED ∨
    (reconcileEntry rep p).status = TERMINATED := by
  unfold reconcileEntry
  cases rep p.pid <;> simp <;> tauto

theorem validStatus_applyOp (l : List Process) (op : ShellOp)
    (h : validStatus l) : validStatus (applyOp l op) := by
  cases op with
  | launch cmd pid =>
      intro p hp
      rcases List.mem_cons.mp hp with rfl | hp
      · left; rfl
      · exact h p hp
  | procs rep =>
      intro p hp
      rw [show applyOp l (ShellOp.procs rep) = (printProcessList rep l).2
            from rfl, printProcessList_snd] at hp
      have hmem := (List.mem_filter.mp hp).1
      have hne : p.status ≠ TERMINATED := by
        have := (List.mem_filter.mp hp).2
        simpa using this
      rw [updateProcessList_eq_map] at hmem
      rcases List.mem_map.mp hmem with ⟨q, hq, rfl⟩
      rcases reconcileEntry_status rep q (h q hq) with h1 | h1 | h1
      · left; exact h1
      · right; exact h1
      · exact absurd h1 hne

theorem validStatus_runFrom (ops : List ShellOp) :
    ∀ l, validStatus l → validStatus (runFrom l ops) := by
  induction ops with
  | nil => intro l h; exact h
  | cons op rest ih =>
      intro l h
      exact ih (applyOp l op) (validStatus_applyOp l op h)

theorem validStatus_run (ops : List ShellOp) : validStatus (run ops) :=
  validStatus_runFrom ops [] (fun p hp => absurd hp (List.not_mem_nil p))

theorem updateProcessList_pid_avoid (rep : Int → WaitRes)
    (l : List Process) (q : Int) (h : ∀ p ∈ l, p.pid ≠ q) :
    ∀ p ∈ updateProcessList rep l, p.pid ≠ q := by
  intro p hp
  rw [updateProcessList_eq_map] at hp
  rcases List.mem_map.mp hp with ⟨r, hr, rfl⟩
  rw [reconcileEntry_pid]
  exact h r hr

theorem runOutputs_pid_avoid (q : Int) (ops : List ShellOp) :
    ∀ l, (∀ p ∈ l, p.pid ≠ q) →
      (∀ cmd pid, ShellOp.launch cmd pid ∈ ops → pid ≠ q) →
      ∀ o ∈ runOutputs l ops, ∀ line ∈ o, line.pid ≠ q := by
  induction ops with
  | nil =>
      intro l _ _ o ho
      simp [runOutputs] at ho
  | cons op rest ih =>
      intro l h1 h2 o ho
      cases op with
      | launch cmd pid =>
          simp only [runOutputs] at ho
          refine ih _ ?_ ?_ o ho
          · intro p hp
            rcases List.mem_cons.mp hp with rfl | hp
            · exact h2 cmd pid (List.mem_cons_self _ _)
            · exact h1 p hp
          · intro cmd' pid' hm
            exact h2 cmd' pid' (List.mem_cons_of_mem _ hm)
      | procs rep =>
          simp only [runOutputs] at ho
          rcases List.mem_cons.mp ho with rfl | ho
          · intro line hline
            rcases List.mem_map.mp hline with ⟨p, hp, rfl⟩
            exact updateProcessList_pid_avoid rep l q h1 p hp
          · refine ih _ ?_ ?_ o ho
            · intro p hp
              rw [printProcessList_snd] at hp
              exact updateProcessList_pid_avoid rep l q h1 p
                (List.mem_filter.mp hp).1
            · intro cmd' pid' hm
              exact h2 cmd' pid' (List.mem_cons_of_mem _ hm)

/-- C1 (Reaping exactness): along any sequence of single-command launches
and `procs` invocations from the empty job table, every entry entering a
`procs` call is `Running`/`Suspended` (so a `procs` call that displays an
entry as `Terminated` is the first to do so); in that call every
reconciled entry is displayed, the word `Terminated` is displayed exactly
for status `TERMINATED`, and an entry survives the call exactly when its
status is not `TERMINATED` — the `Terminated` ones are removed in the same
call.  Finally, once no entry with pid `q` is left after the call, no later
`procs` output mentions pid `q` as long as no later launch reuses it. -/
theorem C1_reaping_exactness (ops : List ShellOp) (rep : Int → WaitRes)
    (later : List ShellOp) (q : Int)
    (hfresh : ∀ cmd pid, ShellOp.launch cmd pid ∈ later → pid ≠ q)
    (hq : ∀ p ∈ (printProcessList rep (run ops)).2, p.pid ≠ q) :
    validStatus (run ops) ∧
    (∀ p ∈ updateProcessList rep (run ops),
        (⟨p.pid, p.cmd.arg0, statusWord p.status⟩ : ProcsLine) ∈
            (printProcessList rep (run ops)).1 ∧
        (statusWord p.status = "Terminated" ↔ p.status = TERMINATED) ∧
        (p ∈ (printProcessList rep (run ops)).2 ↔
            p.status ≠ TERMINATED)) ∧
    (∀ o ∈ runOutputs ((printProcessList rep (run ops)).2) later,
        ∀ line ∈ o, line.pid ≠ q) := by
  have hval : validStatus (run ops) := validStatus_run ops
  refine ⟨hval, ?_, ?_⟩
  · intro p hp
    refine ⟨?_, ?_, ?_⟩
    · show _ ∈ displayLoop _
      exact List.mem_map.mpr ⟨p, hp, rfl⟩
    · refine statusWord_terminated_iff p.status ?_
      rw [updateProcessList_eq_map] at hp
      rcases List.mem_map.mp hp with ⟨r, hr, rfl⟩
      exact reconcileEntry_status rep r (hval r hr)
    · rw [printProcessList_snd]
      constructor
      · intro hmem
        simpa using (List.mem_filter.mp hmem).2
      · intro hne
        exact List.mem_filter.mpr ⟨hp, by simpa using hne⟩
  · exact runOutputs_pid_avoid q later _ hq hfresh

/-- C3 (Status transition order): from any reachable job table, one
reconciliation pass is exactly one application of the per-entry observation
to each tracked entry (each pid consulted once per invocation); no entry is
ever `TERMINATED` at an operation boundary; every entry's move in the pass
follows `Running ↔ Suspended → Terminated`; and the entries that reached
`TERMINATED` are removed by the same `procs` call, so no later operation
ever sees — let alone rewrites — a `Terminated` entry. -/
theorem C3_status_transition_order (ops : List ShellOp)
    (rep : Int → WaitRes) :
    updateProcessList rep (run ops) = (run ops).map (reconcileEntry rep) ∧
    (∀ p ∈ run ops, p.status = RUNNING ∨ p.status = SUSPENDED) ∧
    (∀ p ∈ run ops,
        allowedTransition p.status (reconcileEntry rep p).status) ∧
    (printProcessList rep (run ops)).2 =
      (updateProcessList rep (run ops)).filter
        (fun p => p.status != TERMINATED) := by
  have hval : validStatus (run ops) := validStatus_run ops
  refine ⟨updateProcessList_eq_map rep _, hval, ?_, printProcessList_snd rep _⟩
  intro p hp
  exact ⟨hval p hp, reconcileEntry_status rep p (hval p hp)⟩

/-- Witness for C1 at a concrete run: launch pid 7, reconcile with every
child exited, with one further `procs` afterwards and no relaunch of 7. -/
theorem C1_reaping_exactness_witness :
    ((∀ cmd pid, ShellOp.launch cmd pid ∈ c1later → pid ≠ 7) ∧
     (∀ p ∈ (printProcessList repExit (run c1ops)).2, p.pid ≠ 7)) ∧
    (validStatus (run c1ops) ∧
     (∀ p ∈ updateProcessList repExit (run c1ops),
        (⟨p.pid, p.cmd.arg0, statusWord p.status⟩ : ProcsLine) ∈
            (printProcessList repExit (run c1ops)).1 ∧
        (statusWord p.status = "Terminated" ↔ p.status = TERMINATED) ∧
        (p ∈ (printProcessList repExit (run c1ops)).2 ↔
            p.status ≠ TERMINATED)) ∧
     (∀ o ∈ runOutputs ((printProcessList repExit (run c1ops)).2) c1later,
        ∀ line ∈ o, line.pid ≠ 7)) :=
  ⟨⟨by intro cmd pid h; simp [c1later] at h, by decide⟩,
   C1_reaping_exactness c1ops repExit c1later 7
     (by intro cmd pid h; simp [c1later] at h) (by decide)⟩

/-- C2 (counterexample): reconciliation is not idempotent per pid per
OS-reported event.  A `Running` entry observed stopped becomes `Suspended`
and is displayed `Suspended`; reconciling again when the OS reports no new
event for that pid (`waitpid` returns 0) resets it to `Running`, so the
displayed status changes although no new event was reported — a `Suspended`
entry does not stay `Suspended`. -/
theorem C2_not_idempotent_counterexample :
    displayLoop (updateProcessList repStop
        [{ cmd := sampleCmd, pid := 5, status := RUNNING }]) =
      [⟨5, "sleep", "Suspended"⟩] ∧
    displayLoop (updateProcessList repNone (updateProcessList repStop
        [{ cmd := sampleCmd, pid := 5, status := RUNNING }])) =
      [⟨5, "sleep", "Running"⟩] := by
  decide

/-- C2 (amended): a reconciliation in which the OS reports no new event for
any tracked pid sets every entry's status to `Running` (the code's "no
change reported → Running" rule); from then on further reconciliations with
no new events leave the table unchanged — so extra invocations are
idempotent only on `Running` entries, and a `Suspended` entry is reset to
`Running` rather than kept `Suspended`. -/
theorem C2_reconcile_no_event (l : List Process) (rep : Int → WaitRes)
    (hrep : ∀ q, rep q = WaitRes.noChange) :
    (∀ p ∈ updateProcessList rep l, p.status = RUNNING) ∧
    updateProcessList rep (updateProcessList rep l) =
      updateProcessList rep l := by
  have hone : ∀ p, reconcileEntry rep p = { p with status := RUNNING } := by
    intro p
    unfold reconcileEntry
    rw [hrep p.pid]
  constructor
  · intro p hp
    rw [updateProcessList_eq_map] at hp
    rcases List.mem_map.mp hp with ⟨r, _, rfl⟩
    rw [hone r]
  · rw [updateProcessList_eq_map, updateProcessList_eq_map,
      List.map_map]
    refine List.map_congr_left ?_
    intro p _
    simp [Function.comp, hone]

/-- Witness for the amended C2 at a concrete table: one `Suspended` and one
`Running` entry, no new OS events. -/
theorem C2_reconcile_no_event_witness :
    (∀ q : Int, repNone q = WaitRes.noChange) ∧
    ((∀ p ∈ updateProcessList repNone
        [{ cmd := sampleCmd, pid := 5, status := SUSPENDED },
         { cmd := sampleCmd, pid := 6, status := RUNNING }],
        p.status = RUNNING) ∧
     updateProcessList repNone (updateProcessList repNone
        [{ cmd := sampleCmd, pid := 5, status := SUSPENDED },
         { cmd := sampleCmd, pid := 6, status := RUNNING }]) =
       updateProcessList repNone
        [{ cmd := sampleCmd, pid := 5, status := SUSPENDED },
         { cmd := sampleCmd, pid := 6, status := RUNNING }]) :=
  ⟨fun _ => rfl,
   C2_reconcile_no_event
     [{ cmd := sampleCmd, pid := 5, status := SUSPENDED },
      { cmd := sampleCmd, pid := 6, status := RUNNING }]
     repNone (fun _ => rfl)⟩

/-- C8 (set_status frame): a `set_status` whose pid matches no tracked
entry leaves the whole table unchanged and prints nothing (regardless of
the debug flag); when some entry matches, exactly the first matching
entry's status field is overwritten and every other field and entry is
untouched. -/
theorem C8_updateProcessStatus_frame (l : List Process)
    (pid status : Int) (debug : Bool) :
    ((∀ p ∈ l, p.pid ≠ pid) →
        updateProcessStatus l pid status = l ∧
        updateProcessStatusStderr debug l pid status = []) ∧
    (∀ l1 p l2, l = l1 ++ p :: l2 → (∀ q ∈ l1, q.pid ≠ pid) →
        p.pid = pid →
        updateProcessStatus l pid status =
          l1 ++ { p with status := status } :: l2) := by
  constructor
  · intro hmiss
    induction l with
    | nil => exact ⟨rfl, rfl⟩
    | cons q rest ih =>
        have hq : q.pid ≠ pid := hmiss q (List.mem_cons_self _ _)
        have hrest := ih fun r hr => hmiss r (List.mem_cons_of_mem _ hr)
        refine ⟨?_, ?_⟩
        · simp only [updateProcessStatus, if_neg hq, hrest.1]
        · simp only [updateProcessStatusStderr, if_neg hq, hrest.2]
  · intro l1
    induction l1 generalizing l with
    | nil =>
        intro p l2 heq _ hp
        subst heq
        simp [updateProcessStatus, hp]
    | cons q rest ih =>
        intro p l2 heq hmiss hp
        subst heq
        have hq : q.pid ≠ pid := hmiss q (List.mem_cons_self _ _)
        simp only [List.cons_append, updateProcessStatus, if_neg hq]
        exact congrArg (q :: .) (ih (rest ++ p :: l2) p l2 rfl
          (fun r hr => hmiss r (List.mem_cons_of_mem _ hr)) hp)

/-- Witness for C8 at a concrete table: a miss on pid 9 is a silent no-op,
and a hit on pid 6 rewrites only the first matching entry. -/
theorem C8_updateProcessStatus_frame_witness :
    updateProcessStatus
        [{ cmd := sampleCmd, pid := 5, status := RUNNING },
         { cmd := sampleCmd, pid := 6, status := RUNNING }] 9 SUSPENDED =
      [{ cmd := sampleCmd, pid := 5, status := RUNNING },
       { cmd := sampleCmd, pid := 6, status := RUNNING }] ∧
    updateProcessStatusStderr true
        [{ cmd := sampleCmd, pid := 5, status := RUNNING },
         { cmd := sampleCmd, pid := 6, status := RUNNING }] 9 SUSPENDED =
      [] ∧
    updateProcessStatus
        [{ cmd := sampleCmd, pid := 5, status := RUNNING },
         { cmd := sampleCmd, pid := 6, status := RUNNING }] 6 SUSPENDED =
      [{ cmd := sampleCmd, pid := 5, status := RUNNING },
       { cmd := sampleCmd, pid := 6, status := SUSPENDED }] :=
  ⟨((C8_updateProcessStatus_frame
      [{ cmd := sampleCmd, pid := 5, status := RUNNING },
       { cmd := sampleCmd, pid := 6, status := RUNNING }] 9 SUSPENDED
      true).1 (by decide)).1,
   ((C8_updateProcessStatus_frame
      [{ cmd := sampleCmd, pid := 5, status := RUNNING },
       { cmd := sampleCmd, pid := 6, status := RUNNING }] 9 SUSPENDED
      true).1 (by decide)).2,
   (C8_updateProcessStatus_frame
      [{ cmd := sampleCmd, pid := 5, status := RUNNING },
       { cmd := sampleCmd, pid := 6, status := RUNNING }] 6 SUSPENDED
      true).2
     [{ cmd := sampleCmd, pid := 5, status := RUNNING }]
     { cmd := sampleCmd, pid := 6, status := RUNNING } [] rfl
     (by decide) rfl⟩

/-- C6 (Pipeline foreground asymmetry): for any two-stage pipeline, the
parent never inserts either child into the job table (the table component
is returned untouched and no `addedJob` action occurs); its action trace
closes both pipe descriptors immediately after the two forks and then waits
on both children; and the whole behaviour is identical whatever the
blocking flag (trailing `&`) of the command says. -/
theorem C6_pipeline_foreground (c c2 : CmdLine) (pid1 pid2 : Int)
    (jobs : List Process) (b : Bool) (hnext : c.next = some c2) :
    (executePipeCommands c c2 pid1 pid2 jobs).1 = jobs ∧
    (∀ q, ParentAction.addedJob q ∉
        (executePipeCommands c c2 pid1 pid2 jobs).2.1) ∧
    (executePipeCommands c c2 pid1 pid2 jobs).2.1 =
      [.createdPipe, .forked pid1, .forked pid2, .closedFd 0, .closedFd 1,
       .waited pid1, .waited pid2] ∧
    executePipeCommands (c.withBlocking b) c2 pid1 pid2 jobs =
      executePipeCommands c c2 pid1 pid2 jobs := by
  refine ⟨rfl, ?_, rfl, ?_⟩
  · intro q hq
    simp [executePipeCommands] at hq
  · cases c <;>
      simp [executePipeCommands, pipeChildA, CmdLine.withBlocking,
        CmdLine.outputRedirect, CmdLine.arguments, CmdLine.stage]

/-- Witness for C6 at a concrete pipeline (`ls > out.txt | wc < in.txt`),
with the blocking flag flipped to background. -/
theorem C6_pipeline_foreground_witness :
    (CmdLine.pipe redirOutStage (.single redirInStage)).next =
      some (.single redirInStage) ∧
    ((executePipeCommands (.pipe redirOutStage (.single redirInStage))
        (.single redirInStage) 8 9 []).1 = [] ∧
     (∀ q, ParentAction.addedJob q ∉
        (executePipeCommands (.pipe redirOutStage (.single redirInStage))
          (.single redirInStage) 8 9 []).2.1) ∧
     (executePipeCommands (.pipe redirOutStage (.single redirInStage))
        (.single redirInStage) 8 9 []).2.1 =
       [.createdPipe, .forked 8, .forked 9, .closedFd 0, .closedFd 1,
        .waited 8, .waited 9] ∧
     executePipeCommands
        ((CmdLine.pipe redirOutStage (.single redirInStage)).withBlocking
          false)
        (.single redirInStage) 8 9 [] =
       executePipeCommands (.pipe redirOutStage (.single redirInStage))
        (.single redirInStage) 8 9 []) :=
  ⟨rfl,
   C6_pipeline_foreground (.pipe redirOutStage (.single redirInStage))
     (.single redirInStage) 8 9 [] false rfl⟩

/-- C7 (Redirect exclusivity in pipelines): a left command with an output
redirect makes child A print the diagnostic and `_exit(1)` before reaching
`execvp`; a right command with an input redirect fails child B the same
way; and each child's behaviour, the parent's trace and the job table do
not depend on the other stage at all, so the other stage and the shell
proceed unaffected. -/
theorem C7_redirect_exclusivity (c c2 : CmdLine) (pid1 pid2 : Int)
    (jobs : List Process) :
    (c.outputRedirect.isSome →
        pipeChildA c = .rejected
          "Output redirection on the left-hand side of the pipe is not allowed\n") ∧
    (c2.inputRedirect.isSome →
        pipeChildB c2 = .rejected
          "Input redirection on the right-hand side of the pipe is not allowed\n") ∧
    (∀ c' : CmdLine,
        (executePipeCommands c' c2 pid1 pid2 jobs).2.2.2 = pipeChildB c2) ∧
    (∀ c2' : CmdLine,
        (executePipeCommands c c2' pid1 pid2 jobs).2.2.1 = pipeChildA c) ∧
    (∀ c' c2' : CmdLine,
        (executePipeCommands c' c2' pid1 pid2 jobs).1 = jobs ∧
        (executePipeCommands c' c2' pid1 pid2 jobs).2.1 =
          (executePipeCommands c c2 pid1 pid2 jobs).2.1) := by
  refine ⟨?_, ?_, fun _ => rfl, fun _ => rfl, fun _ _ => ⟨rfl, rfl⟩⟩
  · intro h
    simp [pipeChildA, h]
  · intro h
    simp [pipeChildB, h]

/-- Witness for C7 at the concrete pipeline `ls > out.txt | wc < in.txt`:
both children are rejected with their diagnostics while the parent's trace
and table are those of any pipeline. -/
theorem C7_redirect_exclusivity_witness :
    pipeChildA (.pipe redirOutStage (.single redirInStage)) =
      .rejected
        "Output redirection on the left-hand side of the pipe is not allowed\n" ∧
    pipeChildB (.single redirInStage) =
      .rejected
        "Input redirection on the right-hand side of the pipe is not allowed\n" :=
  ⟨(C7_redirect_exclusivity (.pipe redirOutStage (.single redirInStage))
      (.single redirInStage) 8 9 []).1 rfl,
   (C7_redirect_exclusivity (.pipe redirOutStage (.single redirInStage))
      (.single redirInStage) 8 9 []).2.1 rfl⟩

/-- C10 (registration before wait): every successfully forked single
command is put at the head of the job table with status `RUNNING`, and the
registration precedes any wait in the parent's action trace — the wait
happens only for a blocking command; consequently a foreground command
already collected by the synchronous wait still occupies its entry, shows
up (as `Terminated`) in the next `procs` output, and only that pass reaps
it, leaving the table as the `procs` pass would leave the old table. -/
theorem C10_register_before_wait (c : CmdLine) (pid : Int)
    (jobs : List Process) (rep : Int → WaitRes)
    (hrep : rep pid = WaitRes.exited) :
    (executeSingleCommand c pid jobs).1 =
      { cmd := c, pid := pid, status := RUNNING } :: jobs ∧
    (executeSingleCommand c pid jobs).2.take 2 =
      [.forked pid, .addedJob pid] ∧
    (c.blocking = true →
        (executeSingleCommand c pid jobs).2 =
          [.forked pid, .addedJob pid, .waited pid]) ∧
    (c.blocking = false →
        (executeSingleCommand c pid jobs).2 =
          [.forked pid, .addedJob pid]) ∧
    ((printProcessList rep (executeSingleCommand c pid jobs).1).1.head? =
        some ⟨pid, c.arg0, "Terminated"⟩) ∧
    (printProcessList rep (executeSingleCommand c pid jobs).1).2 =
      (printProcessList rep jobs).2 := by
  have hnode :
      reconcileEntry rep { cmd := c, pid := pid, status := RUNNING } =
        { cmd := c, pid := pid, status := TERMINATED } := by
    unfold reconcileEntry
    simp [hrep]
  refine ⟨rfl, ?_, ?_, ?_, ?_, ?_⟩
  · cases hb : c.blocking <;> simp [executeSingleCommand, hb]
  · intro hb; simp [executeSingleCommand, hb]
  · intro hb; simp [executeSingleCommand, hb]
  · show (displayLoop (updateProcessList rep _)).head? = _
    rw [updateProcessList_eq_map]
    show (displayLoop (reconcileEntry rep _ :: _)).head? = _
    rw [hnode]
    simp [displayLoop]
    decide
  · rw [printProcessList_snd, printProcessList_snd,
      updateProcessList_eq_map, updateProcessList_eq_map]
    show (List.filter _ (reconcileEntry rep _ :: _)) = _
    rw [hnode]
    simp

/-- Witness for C10: the foreground command `sleep 5` forked as pid 7 on an
empty table, with the OS reporting it exited by the next `procs`. -/
theorem C10_register_before_wait_witness :
    repExit 7 = WaitRes.exited ∧
    ((executeSingleCommand sampleCmd 7 []).1 =
      [{ cmd := sampleCmd, pid := 7, status := RUNNING }] ∧
     (executeSingleCommand sampleCmd 7 []).2.take 2 =
      [.forked 7, .addedJob 7] ∧
     (sampleCmd.blocking = true →
        (executeSingleCommand sampleCmd 7 []).2 =
          [.forked 7, .addedJob 7, .waited 7]) ∧
     (sampleCmd.blocking = false →
        (executeSingleCommand sampleCmd 7 []).2 =
          [.forked 7, .addedJob 7]) ∧
     ((printProcessList repExit (executeSingleCommand sampleCmd 7 []).1).1.head? =
        some ⟨7, sampleCmd.arg0, "Terminated"⟩) ∧
     (printProcessList repExit (executeSingleCommand sampleCmd 7 []).1).2 =
      (printProcessList repExit []).2) :=
  ⟨rfl, C10_register_before_wait sampleCmd 7 [] repExit rfl⟩

theorem histStore_of_le (cmd : String) (h : cmd.length ≤ MAX_BUF - 1) :
    histStore cmd = cmd := by
  unfold histStore
  rw [String.take_eq]
  cases cmd with
  | mk data =>
      have : data.length ≤ MAX_BUF - 1 := h
      simp [List.take_of_length_le this]

theorem getD_set_ne (l : List String) (i j : Nat) (v d : String)
    (h : i ≠ j) : (l.set i v).getD j d = l.getD j d := by
  simp [List.getD_eq_getElem?_getD, List.getElem?_set_ne h]

theorem getD_set_self (l : List String) (i : Nat) (v d : String)
    (h : i < l.length) : (l.set i v).getD i d = v := by
  simp [List.getD_eq_getElem?_getD, List.getElem?_set_self, h]

theorem getD_append_left (l1 l2 : List String) (i : Nat) (d : String)
    (h : i < l1.length) : (l1 ++ l2).getD i d = l1.getD i d := by
  simp [List.getD_eq_getElem?_getD, List.getElem?_append, h]

theorem appendAll_step (n : Nat) (l : List String) (x : String)
    (s : HistState) :
    appendAll n (l ++ [x]) s = addToHistory n (appendAll n l s) x := by
  simp [appendAll, List.foldl_append]

theorem appendAll_inv (n : Nat) (hn : 0 < n) (ls : List String) :
    (appendAll n ls (initHist n)).count = min ls.length n ∧
    (appendAll n ls (initHist n)).hEnd = ls.length % n ∧
    (appendAll n ls (initHist n)).start =
      (ls.length - min ls.length n) % n ∧
    (appendAll n ls (initHist n)).slots.length = n ∧
    (∀ i, i < min ls.length n →
      (appendAll n ls (initHist n)).slots.getD
          (((appendAll n ls (initHist n)).start + i) % n) "" =
        histStore (ls.getD (ls.length - min ls.length n + i) "")) := by
  induction ls using List.reverseRecOn with
  | nil =>
      refine ⟨?_, ?_, ?_, ?_, ?_⟩
      · simp [appendAll, initHist]
      · simp [appendAll, initHist]
      · simp [appendAll, initHist]
      · simp [appendAll, initHist]
      · intro i hi
        simp at hi
  | append_singleton l x ih =>
      obtain ⟨hc, he, hs, hl, hslot⟩ := ih
      rw [appendAll_step]
      set s := appendAll n l (initHist n) with hsdef
      set m := l.length with hmdef
      have hlen : (l ++ [x]).length = m + 1 := by simp
      by_cases hcase : m < n
      · -- ring not yet full: count grows, start stays 0
        have hminm : min m n = m := Nat.min_eq_left (Nat.le_of_lt hcase)
        have hmin1 : min (m + 1) n = m + 1 := Nat.min_eq_left hcase
        have hcount : s.count = m := by rw [hc, hminm]
        have hstart : s.start = 0 := by
          rw [hs, hminm, Nat.sub_self, Nat.zero_mod]
        have hend : s.hEnd = m := by
          rw [he, Nat.mod_eq_of_lt hcase]
        have hclt : s.count < n := by rw [hcount]; exact hcase
        refine ⟨?_, ?_, ?_, ?_, ?_⟩
        · show (if s.count < n then s.count + 1 else s.count) = _
          rw [if_pos hclt, hcount, hlen, hmin1]
        · show (s.hEnd + 1) % n = _
          rw [hend, hlen]
        · show (if s.count < n then s.start else (s.start + 1) % n) = _
          rw [if_pos hclt, hstart, hlen, hmin1, Nat.sub_self, Nat.zero_mod]
        · show (s.slots.set s.hEnd (histStore x)).length = n
          rw [List.length_set, hl]
        · intro i hi
          rw [hlen, hmin1] at hi ⊢
          rw [Nat.sub_self]
          show (s.slots.set s.hEnd (histStore x)).getD
              (((if s.count < n then s.start else (s.start + 1) % n) + i)
                % n) "" = _
          rw [if_pos hclt, hstart, Nat.zero_add,
            Nat.mod_eq_of_lt (Nat.lt_of_lt_of_le hi hcase)]
          rcases Nat.lt_or_ge i m with him | him
          · rw [getD_set_ne _ _ _ _ _ (by omega : s.hEnd ≠ i)]
            have hold := hslot i (by rw [hminm]; exact him)
            rw [hstart, Nat.zero_add,
              Nat.mod_eq_of_lt (Nat.lt_trans him hcase), hminm,
              Nat.sub_self, Nat.zero_add] at hold
            rw [hold, getD_append_left l [x] i "" him]
          · have hieq : i = m := by omega
            rw [hieq]
            have hset :
                (s.slots.set s.hEnd (histStore x)).getD m "" =
                  histStore x := by
              rw [← hend]
              exact getD_set_self _ _ _ _ (by rw [hl, hend]; omega)
            have hx : (l ++ [x]).getD m "" = x := by
              simp [List.getD_eq_getElem?_getD, List.getElem?_append_right,
                Nat.le_refl]
            rw [hset, hx]
      · -- ring full: count stays n, start advances with hEnd
        have hge : n ≤ m := Nat.le_of_not_lt hcase
        have hminm : min m n = n := Nat.min_eq_right hge
        have hmin1 : min (m + 1) n = n := Nat.min_eq_right (by omega)
        have hcount : s.count = n := by rw [hc, hminm]
        have hclt : ¬ s.count < n := by rw [hcount]; exact Nat.lt_irrefl n
        have hsub : (m - n) % n = m % n := by
          conv_rhs => rw [show m = (m - n) + n by omega]
          rw [Nat.add_mod_right]
        have hstart : s.start = m % n := by rw [hs, hminm, hsub]
        refine ⟨?_, ?_, ?_, ?_, ?_⟩
        · show (if s.count < n then s.count + 1 else s.count) = _
          rw [if_neg hclt, hcount, hlen, hmin1]
        · show (s.hEnd + 1) % n = _
          rw [he, Nat.mod_add_mod, hlen]
        · show (if s.count < n then s.start else (s.start + 1) % n) = _
          rw [if_neg hclt, hstart, hlen, hmin1, Nat.mod_add_mod]
          have hsub1 : (m + 1 - n) % n = (m + 1) % n := by
            conv_rhs => rw [show m + 1 = (m + 1 - n) + n by omega]
            rw [Nat.add_mod_right]
          rw [hsub1]
        · show (s.slots.set s.hEnd (histStore x)).length = n
          rw [List.length_set, hl]
        · intro i hi
          rw [hlen, hmin1] at hi ⊢
          show (s.slots.set s.hEnd (histStore x)).getD
              (((if s.count < n then s.start else (s.start + 1) % n) + i)
                % n) "" = _
          rw [if_neg hclt, hstart]
          have hidx : ((m % n + 1) % n + i) % n = (m + 1 + i) % n := by
            rw [Nat.mod_add_mod, Nat.add_assoc, Nat.mod_add_mod,
              ← Nat.add_assoc]
          rw [hidx]
          rcases Nat.lt_or_ge i (n - 1) with him | him
          · -- untouched slot, comes from position i+1 of the old window
            have hne : s.hEnd ≠ (m + 1 + i) % n := by
              rw [he]
              intro hmod
              have hmeq : Nat.ModEq n m (m + 1 + i) := hmod
              have hzero : Nat.ModEq n 0 (1 + i) :=
                Nat.ModEq.add_left_cancel' m
                  (by simpa [Nat.add_assoc] using hmeq)
              have hdvd : n ∣ 1 + i :=
                (Nat.modEq_zero_iff_dvd.mp hzero.symm)
              have := Nat.le_of_dvd (by omega) hdvd
              omega
            rw [getD_set_ne _ _ _ _ _ hne]
            have hold := hslot (i + 1) (by rw [hminm]; omega)
            rw [hstart, hminm] at hold
            have hidx2 : (m % n + (i + 1)) % n = (m + 1 + i) % n := by
              rw [Nat.mod_add_mod]
              congr 1
              omega
            rw [hidx2] at hold
            rw [hold]
            have harg : m - n + (i + 1) = m + 1 - n + i := by omega
            rw [harg, getD_append_left l [x] _ "" (by omega)]
          · -- the slot just written
            have hieq : i = n - 1 := by omega
            rw [hieq]
            have hidx3 : (m + 1 + (n - 1)) % n = m % n := by
              rw [show m + 1 + (n - 1) = m + n by omega,
                Nat.add_mod_right]
            rw [hidx3]
            have hset :
                (s.slots.set s.hEnd (histStore x)).getD (m % n) "" =
                  histStore x := by
              rw [← he]
              exact getD_set_self _ _ _ _ (by rw [hl, he]; exact Nat.mod_lt _ hn)
            have harg : m + 1 - n + (n - 1) = m := by omega
            have hx : (l ++ [x]).getD m "" = x := by
              simp [List.getD_eq_getElem?_getD, List.getElem?_append_right,
                Nat.le_refl]
            rw [hset, harg, hx]

theorem printHistory_appendAll (n : Nat) (hn : 0 < n) (ls : List String)
    (hbound : ∀ l ∈ ls, l.length ≤ MAX_BUF - 1) :
    printHistory n (appendAll n ls (initHist n)) =
      (List.range (min ls.length n)).map
        (fun i => (i + 1, ls.getD (ls.length - min ls.length n + i) "")) := by
  obtain ⟨h1, _, h3, _, h5⟩ := appendAll_inv n hn ls
  unfold printHistory
  rw [h1]
  refine List.map_congr_left ?_
  intro i hi
  have hi' : i < min ls.length n := List.mem_range.mp hi
  have hidx : ls.length - min ls.length n + i < ls.length := by
    have := Nat.min_le_left ls.length n
    omega
  rw [h5 i hi', histStore_of_le]
  rw [List.getD_eq_getElem ls "" hidx]
  exact hbound _ (List.getElem_mem hidx)

theorem map_range_getD_eq_drop (ls : List String) (k off : Nat)
    (h : off + k = ls.length) :
    (List.range k).map (fun i => ls.getD (off + i) "") = ls.drop off := by
  refine List.ext_getElem ?_ ?_
  · simp
    omega
  · intro j h1 h2
    simp only [List.getElem_map, List.getElem_range]
    have hj : j < k := by simpa using h1
    have hb : off + j < ls.length := by omega
    rw [List.getD_eq_getElem ls "" hb, List.getElem_drop]

/-- C4 (History bound): appending `M > N` lines (each fitting in a slot) to
the capacity-`N` ring leaves `count = N`; `history` then prints exactly `N`
lines, whose texts are the most recent `N` appended lines in append order
(oldest first) and whose printed indices are `1 .. N`; printed index 1
carries the oldest retained line and printed index `count = N` the newest. -/
theorem C4_history_bound (n : Nat) (hn : 0 < n) (lines : List String)
    (hM : n < lines.length)
    (hbound : ∀ l ∈ lines, l.length ≤ MAX_BUF - 1) :
    (appendAll n lines (initHist n)).count = n ∧
    (printHistory n (appendAll n lines (initHist n))).length = n ∧
    (printHistory n (appendAll n lines (initHist n))).map Prod.snd =
      lines.drop (lines.length - n) ∧
    (printHistory n (appendAll n lines (initHist n))).map Prod.fst =
      (List.range n).map (fun i => i + 1) ∧
    (printHistory n (appendAll n lines (initHist n)))[0]? =
      some (1, lines.getD (lines.length - n) "") ∧
    (printHistory n (appendAll n lines (initHist n)))[n - 1]? =
      some (n, lines.getD (lines.length - 1) "") := by
  have hmin : min lines.length n = n := Nat.min_eq_right (Nat.le_of_lt hM)
  have hprint := printHistory_appendAll n hn lines hbound
  rw [hmin] at hprint
  obtain ⟨h1, _, _, _, _⟩ := appendAll_inv n hn lines
  refine ⟨by rw [h1, hmin], ?_, ?_, ?_, ?_, ?_⟩
  · rw [hprint]
    simp
  · rw [hprint, ← map_range_getD_eq_drop lines n (lines.length - n)
      (by omega)]
    rw [List.map_map]
    rfl
  · rw [hprint, List.map_map]
    rfl
  · rw [hprint]
    have h0 : 0 < n := hn
    simp [List.getElem?_map, List.getElem?_range, h0]
  · rw [hprint]
    have h0 : n - 1 < n := by omega
    rw [List.getElem?_map, List.getElem?_range h0, Option.map_some']
    rw [show n - 1 + 1 = n by omega,
      show lines.length - n + (n - 1) = lines.length - 1 by omega]

/-- Witness for C4: a capacity-3 ring after appending 5 lines retains
exactly the last 3, displayed oldest first with indices 1..3. -/
theorem C4_history_bound_witness :
    ((0 : Nat) < 3 ∧
      (3 : Nat) < (["a\n", "b\n", "c\n", "d\n", "e\n"] : List String).length ∧
      (∀ l ∈ (["a\n", "b\n", "c\n", "d\n", "e\n"] : List String),
        l.length ≤ MAX_BUF - 1)) ∧
    ((appendAll 3 ["a\n", "b\n", "c\n", "d\n", "e\n"] (initHist 3)).count =
        3 ∧
     (printHistory 3
        (appendAll 3 ["a\n", "b\n", "c\n", "d\n", "e\n"]
          (initHist 3))).length = 3 ∧
     (printHistory 3
        (appendAll 3 ["a\n", "b\n", "c\n", "d\n", "e\n"]
          (initHist 3))).map Prod.snd = ["c\n", "d\n", "e\n"] ∧
     (printHistory 3
        (appendAll 3 ["a\n", "b\n", "c\n", "d\n", "e\n"]
          (initHist 3))).map Prod.fst = [1, 2, 3] ∧
     (printHistory 3
        (appendAll 3 ["a\n", "b\n", "c\n", "d\n", "e\n"]
          (initHist 3)))[0]? = some (1, "c\n") ∧
     (printHistory 3
        (appendAll 3 ["a\n", "b\n", "c\n", "d\n", "e\n"]
          (initHist 3)))[2]? = some (3, "e\n")) :=
  ⟨⟨by decide, by decide, by decide⟩,
   C4_history_bound 3 (by decide) ["a\n", "b\n", "c\n", "d\n", "e\n"]
     (by decide) (by decide)⟩

/-- C5 (Recall correctness): with retained history `[a, b, c]`, the `!!`
form (index `count`) recalls `c` and `!2` recalls `b`; `!5` is out of range
and recalls nothing; and in general, a line whose recall fails is processed
as `continue` with the history ring returned exactly as it was — the failed
recall line is never appended. -/
theorem C5_recall_correctness (a b c : String)
    (ha : a.length ≤ MAX_BUF - 1) (hb : b.length ≤ MAX_BUF - 1)
    (hc : c.length ≤ MAX_BUF - 1) :
    getHistoryCommand HISTLEN
        (appendAll HISTLEN [a, b, c] (initHist HISTLEN))
        (appendAll HISTLEN [a, b, c] (initHist HISTLEN)).count = some c ∧
    getHistoryCommand HISTLEN
        (appendAll HISTLEN [a, b, c] (initHist HISTLEN)) 2 = some b ∧
    getHistoryCommand HISTLEN
        (appendAll HISTLEN [a, b, c] (initHist HISTLEN)) 5 = none ∧
    expandLine HISTLEN (appendAll HISTLEN [a, b, c] (initHist HISTLEN))
        "!!\n" = some c ∧
    expandLine HISTLEN (appendAll HISTLEN [a, b, c] (initHist HISTLEN))
        "!2\n" = some b ∧
    expandLine HISTLEN (appendAll HISTLEN [a, b, c] (initHist HISTLEN))
        "!5\n" = none ∧
    (∀ (hst : HistState) (parse : String → Option CmdLine) (input : String),
        expandLine HISTLEN hst input = none →
        mainStep HISTLEN parse input hst = (hst, Outcome.recallFailed)) := by
  obtain ⟨h1, _, h3, _, h5⟩ :=
    appendAll_inv HISTLEN (by decide) [a, b, c]
  set s3 := appendAll HISTLEN [a, b, c] (initHist HISTLEN) with hs3
  have hlen3 : ([a, b, c] : List String).length = 3 := rfl
  have hmin3 : (3 : Nat) ⊓ HISTLEN = 3 := by decide
  have hcount : s3.count = 3 := by rw [h1, hlen3]; decide
  have hstart : s3.start = 0 := by rw [h3, hlen3]; decide
  simp only [hlen3, hmin3, Nat.sub_self, Nat.zero_add, hstart] at h5
  have hv1 := h5 1 (by decide)
  have hv2 := h5 2 (by decide)
  rw [show (1 : Nat) % HISTLEN = 1 by decide,
    show ([a, b, c].getD 1 "" : String) = b from rfl,
    histStore_of_le b hb] at hv1
  rw [show (2 : Nat) % HISTLEN = 2 by decide,
    show ([a, b, c].getD 2 "" : String) = c from rfl,
    histStore_of_le c hc] at hv2
  have hget3 : getHistoryCommand HISTLEN s3 3 = some c := by
    unfold getHistoryCommand
    rw [hcount, hstart, if_neg (by decide : ¬((3 : Nat) < 1 ∨ 3 > 3)),
      show ((0 : Nat) + (3 - 1)) % HISTLEN = 2 by decide, hv2]
  have hget2 : getHistoryCommand HISTLEN s3 2 = some b := by
    unfold getHistoryCommand
    rw [hcount, hstart, if_neg (by decide : ¬((2 : Nat) < 1 ∨ 2 > 3)),
      show ((0 : Nat) + (2 - 1)) % HISTLEN = 1 by decide, hv1]
  have hget5 : getHistoryCommand HISTLEN s3 5 = none := by
    unfold getHistoryCommand
    rw [hcount, if_pos (by decide : (5 : Nat) < 1 ∨ 5 > 3)]
  have hbang : expandLine HISTLEN s3 "!!\n" =
      getHistoryCommand HISTLEN s3 s3.count := by
    unfold expandLine
    rw [if_pos rfl]
  have hb2 : expandLine HISTLEN s3 "!2\n" =
      getHistoryCommand HISTLEN s3 2 := rfl
  have hb5 : expandLine HISTLEN s3 "!5\n" =
      getHistoryCommand HISTLEN s3 5 := rfl
  refine ⟨?_, hget2, hget5, ?_, ?_, ?_, ?_⟩
  · rw [hcount]; exact hget3
  · rw [hbang, hcount]; exact hget3
  · rw [hb2]; exact hget2
  · rw [hb5]; exact hget5
  · intro hst parse input h
    simp [mainStep, h]

/-- Witness for C5 with the concrete history `[ls, pwd, date]`. -/
theorem C5_recall_correctness_witness :
    ("ls\n".length ≤ MAX_BUF - 1 ∧ "pwd\n".length ≤ MAX_BUF - 1 ∧
      "date\n".length ≤ MAX_BUF - 1) ∧
    (getHistoryCommand HISTLEN
        (appendAll HISTLEN ["ls\n", "pwd\n", "date\n"] (initHist HISTLEN))
        (appendAll HISTLEN ["ls\n", "pwd\n", "date\n"]
          (initHist HISTLEN)).count = some "date\n" ∧
     getHistoryCommand HISTLEN
        (appendAll HISTLEN ["ls\n", "pwd\n", "date\n"] (initHist HISTLEN))
        2 = some "pwd\n" ∧
     getHistoryCommand HISTLEN
        (appendAll HISTLEN ["ls\n", "pwd\n", "date\n"] (initHist HISTLEN))
        5 = none ∧
     expandLine HISTLEN
        (appendAll HISTLEN ["ls\n", "pwd\n", "date\n"] (initHist HISTLEN))
        "!!\n" = some "date\n" ∧
     expandLine HISTLEN
        (appendAll HISTLEN ["ls\n", "pwd\n", "date\n"] (initHist HISTLEN))
        "!2\n" = some "pwd\n" ∧
     expandLine HISTLEN
        (appendAll HISTLEN ["ls\n", "pwd\n", "date\n"] (initHist HISTLEN))
        "!5\n" = none ∧
     (∀ (hst : HistState) (parse : String → Option CmdLine)
        (input : String),
        expandLine HISTLEN hst input = none →
        mainStep HISTLEN parse input hst = (hst, Outcome.recallFailed))) :=
  ⟨⟨by decide, by decide, by decide⟩,
   C5_recall_correctness "ls\n" "pwd\n" "date\n" (by decide) (by decide)
     (by decide)⟩

/-- C9 (implicit, append before parse): the history effect of one main-loop
iteration does not depend on the parser at all; whenever history expansion
yields a line (every line that is not a failed recall), that line is
appended to the ring; in particular any line not starting with `!` — blank
lines, parser-rejected lines, and the `quit` line among them — is itself
appended verbatim, whatever the parser later says about it. -/
theorem C9_append_before_parse (parse parse2 : String → Option CmdLine)
    (input : String) (hist : HistState) :
    ((mainStep HISTLEN parse input hist).1 =
      (mainStep HISTLEN parse2 input hist).1) ∧
    (∀ line, expandLine HISTLEN hist input = some line →
        (mainStep HISTLEN parse input hist).1 =
          addToHistory HISTLEN hist line) ∧
    (input.data.head? ≠ some '!' →
        (mainStep HISTLEN parse input hist).1 =
          addToHistory HISTLEN hist input) := by
  have hcore : ∀ (p : String → Option CmdLine) (line : String),
      expandLine HISTLEN hist input = some line →
      (mainStep HISTLEN p input hist).1 =
        addToHistory HISTLEN hist line := by
    intro p line hexp
    simp only [mainStep, hexp]
    cases hp : p line with
    | none => rfl
    | some c => by_cases hq : c.arg0 = "quit" <;> simp [hq]
  have hnone : expandLine HISTLEN hist input = none →
      ∀ p : String → Option CmdLine,
        (mainStep HISTLEN p input hist).1 = hist := by
    intro h p
    simp [mainStep, h]
  have hpass : input.data.head? ≠ some '!' →
      expandLine HISTLEN hist input = some input := by
    intro hhead
    have hne : input ≠ "!!\n" := by
      intro he
      apply hhead
      rw [he]
      rfl
    unfold expandLine
    rw [if_neg hne]
    cases hd : input.data with
    | nil => rfl
    | cons c0 rest =>
        have hc0 : c0 ≠ '!' := by
          intro he
          apply hhead
          simp [hd, he]
        cases rest with
        | nil => rfl
        | cons c1 rest2 => simp [hc0]
  refine ⟨?_, fun line h => hcore parse line h, ?_⟩
  · cases hexp : expandLine HISTLEN hist input with
    | none => rw [hnone hexp parse, hnone hexp parse2]
    | some line => rw [hcore parse line hexp, hcore parse2 line hexp]
  · intro hhead
    exact hcore parse input (hpass hhead)

/-- Witness for C9: a blank line and the `quit` line are appended by the
iteration even under a parser that rejects everything. -/
theorem C9_append_before_parse_witness :
    ("\n".data.head? ≠ some '!' ∧ "quit\n".data.head? ≠ some '!') ∧
    ((mainStep HISTLEN (fun _ => none) "\n" (initHist HISTLEN)).1 =
        addToHistory HISTLEN (initHist HISTLEN) "\n") ∧
    ((mainStep HISTLEN (fun _ => none) "quit\n" (initHist HISTLEN)).1 =
        addToHistory HISTLEN (initHist HISTLEN) "quit\n") :=
  ⟨⟨by decide, by decide⟩,
   (C9_append_before_parse (fun _ => none) (fun _ => none) "\n"
      (initHist HISTLEN)).2.2 (by decide),
   (C9_append_before_parse (fun _ => none) (fun _ => none) "quit\n"
      (initHist HISTLEN)).2.2 (by decide)⟩
